import Mathlib

/-!
# Verification of `build_search_index.py`

A shallow embedding of the search-index builder script. The script walks a
directory tree, extracts title/body text from each `.htm`/`.html` file,
reconstructs breadcrumb paths from the navigation document `___left.htm`,
and writes a sorted JSON array to `search.json` together with a printed
summary.

Modelling conventions:
* Python strings are Lean `String`s (lists of unicode scalar values, which
  matches Python's code-point view of `str`).  All string primitives the
  script uses (`endswith`, `in`, `startswith`, slicing, `strip`,
  `re.sub(r"\s+", " ", ...)`, lexicographic comparison) are re-implemented
  below as structurally recursive functions on `String.data`, so that every
  definition evaluates inside the kernel.
* The filesystem walk (`os.walk`) is abstracted as the list of files it
  yields, each file carrying its directory components and base name.
* `BeautifulSoup` is an external library; its observable behaviour inside
  the `try` block is abstracted per file as a `ParseOutcome`: either a
  failure (any exception raised while reading/parsing the file) or a parse
  result giving the title-tag string (if any) and the flattened text
  returned by `soup.get_text(separator=' ', strip=True)` after the
  `script`/`style`/`font.dtree` decompositions.  Everything the script
  itself computes from that point on is modelled concretely.
* The regex scan of the navigation document (`re.findall` over
  `d.add(id, parent, "name", "url")` calls) is abstracted as the list of
  matched records; everything after the regex stage (node table,
  parent-chain walk, breadcrumb map) is modelled concretely.
* Console output of the final summary block is modelled as the list of
  printed lines; the byte size of `search.json` reported by
  `os.path.getsize` is a parameter of the summary.
-/

namespace SearchIndex

/-! ## Configuration constants (lines 25-28 of the script) -/

def MAX_CONTENT_LENGTH : Nat := 3000

def SKIP_FILES : List String := ["___", "index", "search", "$$unsavedpage"]

/-! ## Python string primitives, re-implemented structurally -/

/-- Python whitespace class (`\s` of `re` and `str.strip` for the ASCII
range): space, tab, newline, carriage return, vertical tab, form feed. -/
def pyIsSpace (c : Char) : Bool :=
  c = ' ' || c = '\t' || c = '\n' || c = '\r' || c = '\x0b' || c = '\x0c'

/-- Python `s.startswith(p)`. -/
def strStartsWith (s p : String) : Bool := p.data.isPrefixOf s.data

/-- Python `s.endswith(p)`. -/
def strEndsWith (s p : String) : Bool := p.data.isSuffixOf s.data

/-- Python `sub in s` (substring containment). -/
def strContains (s sub : String) : Bool := s.data.tails.any (fun t => sub.data.isPrefixOf t)

/-- Python `s[:n]` (first `n` code points). -/
def strTake (s : String) (n : Nat) : String := ⟨s.data.take n⟩

/-- Python `s.strip()`: drop whitespace from both ends. -/
def pystripList (l : List Char) : List Char :=
  ((l.dropWhile pyIsSpace).reverse.dropWhile pyIsSpace).reverse

def pystrip (s : String) : String := ⟨pystripList s.data⟩

/-- `re.sub(r"\s+", " ", ...)`: every maximal whitespace run becomes one
space.  The boolean records whether we are inside a whitespace run. -/
def collapseChars : Bool → List Char → List Char
  | _, [] => []
  | inRun, c :: cs =>
    if pyIsSpace c then
      if inRun then collapseChars true cs else ' ' :: collapseChars true cs
    else
      c :: collapseChars false cs

def collapseWs (s : String) : String := ⟨collapseChars false s.data⟩

/-- Lexicographic (code-point) comparison of char lists; this is Python's
`<=` on `str`, used by `list.sort(key=lambda x: x['title'])`. -/
def lexLe : List Char → List Char → Bool
  | [], _ => true
  | _ :: _, [] => false
  | a :: as, b :: bs =>
    if a.toNat < b.toNat then true
    else if b.toNat < a.toNat then false
    else lexLe as bs

/-- Index of the last `'.'` in a char list, if any. -/
def lastDotIdx : List Char → Option Nat
  | [] => none
  | c :: cs =>
    match lastDotIdx cs with
    | some i => some (i + 1)
    | none => if c = '.' then some 0 else none

/-- `os.path.splitext(name)[0]` for a base name (no separators): cut at the
last dot, unless every character before it is itself a dot. -/
def splitextRoot (name : String) : String :=
  match lastDotIdx name.data with
  | none => name
  | some i => if (name.data.take i).any (fun c => c ≠ '.') then ⟨name.data.take i⟩ else name

/-! ## Tree Builder (`build_breadcrumbs`, lines 34-81) -/

/-- One regex match of `d.add(id, parent_id, "name", "url")`: `id` comes
from `(\d+)` (non-negative), `parent_id` from `(-?\d+)`. -/
structure NavRecord where
  id : Nat
  parent_id : Int
  name : String
  url : String
  deriving DecidableEq

/-- Value stored in the `nodes` dict for one id. -/
structure NavNode where
  parent_id : Int
  name : String
  url : String
  deriving DecidableEq

/-- Python-dict insertion into an association list: overwriting an existing
key keeps its original position (CPython 3.7+ semantics), a new key is
appended. -/
def dictInsert {α β : Type} [DecidableEq α] (k : α) (v : β) : List (α × β) → List (α × β)
  | [] => [(k, v)]
  | (k', v') :: rest => if k' = k then (k, v) :: rest else (k', v') :: dictInsert k v rest

/-- Python-dict lookup in an association list built by `dictInsert`. -/
def alookup {α β : Type} [DecidableEq α] (k : α) : List (α × β) → Option β
  | [] => none
  | (k', v) :: rest => if k' = k then some v else alookup k rest

/-- The `nodes` table: `nodes[node_id] = {...}` over all matches, in order. -/
def buildNodes (records : List NavRecord) : List (Int × NavNode) :=
  records.foldl (fun acc r => dictInsert (Int.ofNat r.id) ⟨r.parent_id, r.name, r.url⟩ acc) []

/-- Number of table keys not yet visited; the `while` loop of `get_path`
strictly decreases it, which bounds the number of iterations. -/
def keysLeft (nodes : List (Int × NavNode)) (visited : List Int) : Nat :=
  ((nodes.map Prod.fst).filter (fun k => decide (k ∉ visited))).length

/-- The `while current in nodes and current not in visited` loop of
`get_path`, with an explicit iteration budget.  `getPath` below supplies a
budget that provably suffices (`getPathAux_stable`), so the fuel never runs
out on the modelled executions. -/
def getPathAux (nodes : List (Int × NavNode)) : Nat → Int → List Int → List String
  | 0, _, _ => []
  | fuel + 1, current, visited =>
    match alookup current nodes with
    | none => []
    | some nd =>
      if current ∈ visited then []
      else nd.name :: getPathAux nodes fuel nd.parent_id (current :: visited)

/-- `get_path(node_id)`: walk the parent chain collecting names, then
`path.reverse()` to root-first order. -/
def getPath (nodes : List (Int × NavNode)) (node_id : Int) : List String :=
  (getPathAux nodes nodes.length node_id []).reverse

/-- The `url_to_breadcrumb` dict: for each node (in table order) whose url
is truthy and does not start with `$$`, map the url to the joined path. -/
def buildBreadcrumbMap (nodes : List (Int × NavNode)) : List (String × String) :=
  nodes.foldl
    (fun acc p =>
      if p.2.url ≠ "" ∧ strStartsWith p.2.url "$$" = false then
        dictInsert p.2.url (String.intercalate " → " (getPath nodes p.1)) acc
      else acc)
    []

/-- `build_breadcrumbs(site_dir)`: `none` models the navigation document
`___left.htm` being absent (the `os.path.exists` check fails and `{}` is
returned); `some records` models the regex matches found in its text. -/
def build_breadcrumbs : Option (List NavRecord) → List (String × String)
  | none => []
  | some records => buildBreadcrumbMap (buildNodes records)

/-! ## Text extraction and Page Records (main loop, lines 94-147) -/

/-- Abstraction of what `BeautifulSoup` yields for one successfully parsed
file: `titleStr` is `soup.title.string` when the conjunction
`soup.title and soup.title.string` is truthy, and `rawText` is
`soup.get_text(separator=' ', strip=True)` after the `script`/`style`/
`font.dtree` elements are decomposed. -/
structure ParseResult where
  titleStr : Option String
  rawText : String
  deriving DecidableEq

/-- Outcome of the fallible part of the per-file `try` block (reading,
decoding and parsing): any raised exception is a `failure`. -/
inductive ParseOutcome where
  | success (pr : ParseResult)
  | failure (msg : String)
  deriving DecidableEq

def isFailure : ParseOutcome → Bool
  | ParseOutcome.failure _ => true
  | ParseOutcome.success _ => false

/-- One file yielded by `os.walk`: directory components below the site
root, base name, and the parse outcome of its contents. -/
structure SiteFile where
  dirs : List String
  name : String
  parse : ParseOutcome
  deriving DecidableEq

/-- One element of `index_data` (a Page Record). -/
structure Entry where
  title : String
  url : String
  content : String
  path : Option String
  deriving DecidableEq

/-- `os.path.relpath(os.path.join(root, file), SITE_DIR).replace('\\', '/')`. -/
def relPath (f : SiteFile) : String :=
  String.intercalate "/" (f.dirs ++ [f.name])

/-- Title resolution (lines 122-126): the stripped title-tag string when
truthy, else the base name without its extension. -/
def resolveTitle (ts : Option String) (fname : String) : String :=
  let t := match ts with
    | some s => pystrip s
    | none => ""
  if t = "" then splitextRoot fname else t

/-- Lines 122-143: build the Page Record for a successfully parsed file. -/
def mkEntry (bc : List (String × String)) (f : SiteFile) (pr : ParseResult) : Entry :=
  let rel := relPath f
  let collapsed := pystrip (collapseWs pr.rawText)
  let text := if MAX_CONTENT_LENGTH < collapsed.length then strTake collapsed MAX_CONTENT_LENGTH
    else collapsed
  let breadcrumb := (alookup rel bc).getD ""
  ⟨resolveTitle pr.titleStr f.name, rel, text,
    if breadcrumb = "" then none else some breadcrumb⟩

/-- `file.endswith('.htm') or file.endswith('.html')` (line 100). -/
def isHtmlName (name : String) : Bool :=
  strEndsWith name ".htm" || strEndsWith name ".html"

/-- `any(skip in file for skip in SKIP_FILES)` (line 103): applied to the
base name only. -/
def hasSkipSub (name : String) : Bool :=
  SKIP_FILES.any (fun sk => strContains name sk)

/-- The mutable state of the main loop: `index_data`, `skipped`, `errors`. -/
structure LoopState where
  index_data : List Entry
  skipped : Nat
  errors : Nat
  deriving DecidableEq

/-- One iteration of the main loop body (lines 99-147) on one file. -/
def stepFile (bc : List (String × String)) (s : LoopState) (f : SiteFile) : LoopState :=
  if isHtmlName f.name = false then s
  else if hasSkipSub f.name = true then ⟨s.index_data, s.skipped + 1, s.errors⟩
  else
    match f.parse with
    | ParseOutcome.failure _ => ⟨s.index_data, s.skipped, s.errors + 1⟩
    | ParseOutcome.success pr => ⟨s.index_data ++ [mkEntry bc f pr], s.skipped, s.errors⟩

/-- The Page Record a file contributes, if any. -/
def entryOf (bc : List (String × String)) (f : SiteFile) : Option Entry :=
  if isHtmlName f.name = true ∧ hasSkipSub f.name = false then
    match f.parse with
    | ParseOutcome.success pr => some (mkEntry bc f pr)
    | ParseOutcome.failure _ => none
  else none

/-- Files counted by the `skipped` counter. -/
def countSkippedF (files : List SiteFile) : Nat :=
  files.countP (fun f => isHtmlName f.name && hasSkipSub f.name)

/-- Files counted by the `errors` counter. -/
def countErroredF (files : List SiteFile) : Nat :=
  files.countP (fun f => isHtmlName f.name && !hasSkipSub f.name && isFailure f.parse)

/-- Files found whose name ends in `.htm` or `.html`. -/
def totalHtml (files : List SiteFile) : Nat :=
  files.countP (fun f => isHtmlName f.name)

/-- Stable insertion of an entry into a title-sorted list. -/
def insertSorted (e : Entry) : List Entry → List Entry
  | [] => [e]
  | x :: xs => if lexLe e.title.data x.title.data then e :: x :: xs else x :: insertSorted e xs

/-- `index_data.sort(key=lambda x: x['title'])` (line 149): a stable sort
by title; stable sorts by the same key agree, so insertion sort models
CPython's stable sort exactly. -/
def sortByTitle : List Entry → List Entry
  | [] => []
  | x :: xs => insertSorted x (sortByTitle xs)

/-- The observable result of one run: the array serialized to
`search.json` (in order), the two counters and the breadcrumb map. -/
structure RunResult where
  index_data : List Entry
  skipped : Nat
  errors : Nat
  breadcrumbs : List (String × String)
  deriving DecidableEq

/-- The whole script on the files the walk yields and the (optional)
navigation records: build breadcrumbs, fold the main loop, sort. -/
def run (files : List SiteFile) (nav : Option (List NavRecord)) : RunResult :=
  let bc := build_breadcrumbs nav
  let st := files.foldl (stepFile bc) ⟨[], 0, 0⟩
  ⟨sortByTitle st.index_data, st.skipped, st.errors, bc⟩

/-! ## Summary report (lines 155-170) -/

/-- Round `a / b` to the nearest integer, ties to even: this is exactly how
CPython's float formatting rounds `a / b` when the quotient is an exactly
represented binary64 value, which holds here because `b` is a power of two
and every realistic `a` is far below `2 ^ 53`. -/
def roundHalfEven (a b : Nat) : Nat :=
  let q := a / b
  let r := a % b
  if 2 * r < b then q else if b < 2 * r then q + 1 else if q % 2 = 0 then q else q + 1

/-- `f"{file_size / 1024 / 1024:.1f}"`. -/
def fmtMB (n : Nat) : String :=
  let t := roundHalfEven (n * 10) (1024 * 1024)
  toString (t / 10) ++ "." ++ toString (t % 10)

/-- `f"{file_size / 1024:.0f}"`. -/
def fmtKB (n : Nat) : String :=
  toString (roundHalfEven n 1024)

/-- Lines 156-159: `size_str` is MB-formatted when the byte size exceeds
one MiB, else KB-formatted. -/
def size_str (file_size : Nat) : String :=
  if 1024 * 1024 < file_size then fmtMB file_size ++ " MB" else fmtKB file_size ++ " KB"

def sep50 : String := ⟨List.replicate 50 '='⟩

/-- The exact sequence of lines printed by the final summary block
(lines 161-170). -/
def summaryLines (indexed withPath skippedN errorsN : Nat) (sizeStr : String) : List String :=
  ["", sep50,
   "  索引頁面數：" ++ toString indexed,
   "  含目錄路徑：" ++ toString withPath,
   "  跳過檔案數：" ++ toString skippedN,
   "  讀取失敗數：" ++ toString errorsN,
   "  search.json：" ++ sizeStr,
   sep50, "", "完成！"]

/-- The summary printed for a run, given the byte size that
`os.path.getsize` reports for the written `search.json`. -/
def summaryReport (r : RunResult) (file_size : Nat) : List String :=
  summaryLines r.index_data.length (r.index_data.countP (fun e => e.path.isSome))
    r.skipped r.errors (size_str file_size)

/-! ## Named orders and sample inputs used in the statements below -/

/-- `a` precedes `b` in the output order: titles compared lexicographically
by code point, exactly Python's `<=` on the `title` strings. -/
def titleLeR (a b : Entry) : Prop := lexLe a.title.data b.title.data = true

/-- The navigation records of the breadcrumb round-trip scenario. -/
def navC4 : List NavRecord := [⟨1, -1, "A", ""⟩, ⟨2, 1, "B", "b.htm"⟩, ⟨3, 2, "C", "c.htm"⟩]

/-- The round-trip records extended with a placeholder (`$$`-prefixed) node. -/
def navC5 : List NavRecord :=
  [⟨1, -1, "A", ""⟩, ⟨2, 1, "B", "b.htm"⟩, ⟨3, 2, "C", "c.htm"⟩, ⟨4, 1, "D", "$$unsavedpage1"⟩]

/-- A navigation table whose parent links form a two-node cycle. -/
def navCyc : List NavRecord := [⟨1, 2, "A", "a.htm"⟩, ⟨2, 1, "B", ""⟩]

def fileA : SiteFile := ⟨[], "a.htm", ParseOutcome.success ⟨some "Alpha", "Hello World"⟩⟩

def fileB : SiteFile := ⟨["sub"], "b.html", ParseOutcome.success ⟨none, "Just text"⟩⟩

def fileBad : SiteFile := ⟨[], "bad.htm", ParseOutcome.failure "boom"⟩

def fileSkip : SiteFile := ⟨[], "___left.htm", ParseOutcome.success ⟨none, "nav"⟩⟩

/-- A small mixed walk: two good pages, one failing page, one skipped file. -/
def sampleFiles : List SiteFile := [fileA, fileB, fileBad, fileSkip]

/-- A small concrete run result, used to evaluate the summary report. -/
def resC9 : RunResult := ⟨[⟨"Alpha", "a.htm", "Hello", none⟩], 0, 0, []⟩

/-! ## Lemmas about the lexicographic order -/

theorem lexLe_total : ∀ a b : List Char, lexLe a b = true ∨ lexLe b a = true
  | [], _ => Or.inl rfl
  | _ :: _, [] => Or.inr rfl
  | x :: xs, y :: ys => by
    by_cases h1 : x.toNat < y.toNat
    · exact Or.inl (by simp [lexLe, h1])
    · by_cases h2 : y.toNat < x.toNat
      · exact Or.inr (by simp [lexLe, h2])
      · rcases lexLe_total xs ys with h | h
        · exact Or.inl (by simp [lexLe, h1, h2, h])
        · exact Or.inr (by simp [lexLe, h1, h2, h])

theorem lexLe_trans : ∀ a b c : List Char,
    lexLe a b = true → lexLe b c = true → lexLe a c = true
  | [], _, _, _, _ => rfl
  | _ :: _, [], _, h, _ => by simp [lexLe] at h
  | _ :: _, _ :: _, [], _, h => by simp [lexLe] at h
  | x :: xs, y :: ys, z :: zs, h1, h2 => by
    simp only [lexLe] at h1 h2 ⊢
    by_cases hxy : x.toNat < y.toNat
    · by_cases hyz : y.toNat < z.toNat
      · rw [if_pos (Nat.lt_trans hxy hyz)]
      · by_cases hzy : z.toNat < y.toNat
        · rw [if_neg hyz, if_pos hzy] at h2
          exact absurd h2 (by decide)
        · have hxz : x.toNat < z.toNat := by omega
          rw [if_pos hxz]
    · by_cases hyx : y.toNat < x.toNat
      · rw [if_neg hxy, if_pos hyx] at h1
        exact absurd h1 (by decide)
      · rw [if_neg hxy, if_neg hyx] at h1
        by_cases hyz : y.toNat < z.toNat
        · have hxz : x.toNat < z.toNat := by omega
          rw [if_pos hxz]
        · by_cases hzy : z.toNat < y.toNat
          · rw [if_neg hyz, if_pos hzy] at h2
            exact absurd h2 (by decide)
          · rw [if_neg hyz, if_neg hzy] at h2
            have hxz : ¬ x.toNat < z.toNat := by omega
            have hzx : ¬ z.toNat < x.toNat := by omega
            rw [if_neg hxz, if_neg hzx]
            exact lexLe_trans xs ys zs h1 h2

/-! ## Lemmas about the insertion sort -/

theorem mem_insertSorted (e a : Entry) : ∀ l : List Entry,
    a ∈ insertSorted e l ↔ a = e ∨ a ∈ l
  | [] => by simp [insertSorted]
  | x :: xs => by
    simp only [insertSorted]
    by_cases h : lexLe e.title.data x.title.data = true
    · rw [if_pos h]
      simp only [List.mem_cons]
    · rw [if_neg h]
      simp only [List.mem_cons, mem_insertSorted e a xs]
      tauto

theorem length_insertSorted (e : Entry) : ∀ l : List Entry,
    (insertSorted e l).length = l.length + 1
  | [] => rfl
  | x :: xs => by
    simp only [insertSorted]
    by_cases h : lexLe e.title.data x.title.data = true
    · rw [if_pos h]
      rfl
    · rw [if_neg h]
      simp [length_insertSorted e xs]

theorem mem_sortByTitle (a : Entry) : ∀ l : List Entry, a ∈ sortByTitle l ↔ a ∈ l
  | [] => Iff.rfl
  | x :: xs => by
    simp only [sortByTitle, mem_insertSorted, mem_sortByTitle a xs, List.mem_cons]

theorem length_sortByTitle : ∀ l : List Entry, (sortByTitle l).length = l.length
  | [] => rfl
  | x :: xs => by
    simp [sortByTitle, length_insertSorted, length_sortByTitle xs]

theorem pairwise_insertSorted (e : Entry) : ∀ l : List Entry,
    l.Pairwise titleLeR → (insertSorted e l).Pairwise titleLeR
  | [], _ => List.pairwise_singleton ..
  | x :: xs, h => by
    rw [List.pairwise_cons] at h
    simp only [insertSorted]
    by_cases hc : lexLe e.title.data x.title.data = true
    · rw [if_pos hc]
      refine List.Pairwise.cons ?_ (List.Pairwise.cons h.1 h.2)
      intro b hb
      rcases List.mem_cons.mp hb with hbx | hb
      · rw [hbx]
        exact hc
      · exact lexLe_trans e.title.data x.title.data b.title.data hc (h.1 b hb)
    · rw [if_neg hc]
      refine List.Pairwise.cons ?_ (pairwise_insertSorted e xs h.2)
      intro b hb
      rcases (mem_insertSorted e b xs).mp hb with hbe | hb
      · rw [hbe]
        rcases lexLe_total e.title.data x.title.data with ht | ht
        · exact absurd ht hc
        · exact ht
      · exact h.1 b hb

theorem pairwise_sortByTitle : ∀ l : List Entry, (sortByTitle l).Pairwise titleLeR
  | [] => List.Pairwise.nil
  | x :: xs => pairwise_insertSorted x (sortByTitle xs) (pairwise_sortByTitle xs)

/-! ## Lemmas about association lists -/

theorem alookup_mem_keys {α β : Type} [DecidableEq α] (k : α) (v : β) :
    ∀ l : List (α × β), alookup k l = some v → k ∈ l.map Prod.fst
  | [], h => by simp [alookup] at h
  | (k', v') :: rest, h => by
    simp only [List.map_cons, List.mem_cons]
    by_cases hk : k' = k
    · exact Or.inl hk.symm
    · simp only [alookup, if_neg hk] at h
      exact Or.inr (alookup_mem_keys k v rest h)

theorem alookup_some_mem {α β : Type} [DecidableEq α] (k : α) (v : β) :
    ∀ l : List (α × β), alookup k l = some v → (k, v) ∈ l
  | [], h => by simp [alookup] at h
  | (k', v') :: rest, h => by
    by_cases hk : k' = k
    · simp only [alookup, if_pos hk] at h
      subst hk
      rw [Option.some_inj] at h
      rw [h]
      exact List.mem_cons_self ..
    · simp only [alookup, if_neg hk] at h
      exact List.mem_cons_of_mem _ (alookup_some_mem k v rest h)

theorem mem_dictInsert {α β : Type} [DecidableEq α] (k : α) (v : β) (x : α × β) :
    ∀ l : List (α × β), x ∈ dictInsert k v l → x = (k, v) ∨ x ∈ l
  | [], h => by simpa [dictInsert] using h
  | (k', v') :: rest, h => by
    by_cases hk : k' = k
    · simp only [dictInsert, if_pos hk, List.mem_cons] at h
      rcases h with h | h
      · exact Or.inl h
      · exact Or.inr (List.mem_cons_of_mem _ h)
    · simp only [dictInsert, if_neg hk, List.mem_cons] at h
      rcases h with h | h
      · exact Or.inr (by simp [h])
      · rcases mem_dictInsert k v x rest h with h' | h'
        · exact Or.inl h'
        · exact Or.inr (List.mem_cons_of_mem _ h')

/-! ## Lemmas about the parent-chain walk -/

theorem length_filter_imp {α : Type} (p q : α → Bool) (hpq : ∀ a, p a = true → q a = true) :
    ∀ l : List α, (l.filter p).length ≤ (l.filter q).length := by
  intro l
  induction l with
  | nil => exact Nat.le_refl 0
  | cons b t ih =>
    simp only [List.filter_cons]
    by_cases hp : p b = true
    · rw [if_pos hp, if_pos (hpq b hp)]
      simpa using ih
    · rw [if_neg hp]
      by_cases hq : q b = true
      · rw [if_pos hq]
        exact Nat.le_succ_of_le ih
      · rw [if_neg hq]
        exact ih

theorem length_filter_cons_lt {α : Type} [DecidableEq α] (a : α) (l : List α) (vis : List α)
    (ha : a ∈ l) (hna : a ∉ vis) :
    (l.filter (fun k => decide (k ∉ a :: vis))).length <
      (l.filter (fun k => decide (k ∉ vis))).length := by
  have himp : ∀ k : α, decide (k ∉ a :: vis) = true → decide (k ∉ vis) = true := by
    intro k hk
    rw [decide_eq_true_eq] at hk
    rw [decide_eq_true_eq]
    intro hkv
    exact hk (List.mem_cons_of_mem _ hkv)
  induction l with
  | nil => cases ha
  | cons b t ih =>
    simp only [List.filter_cons]
    rcases List.mem_cons.mp ha with hba | hat
    · subst hba
      rw [if_neg (by simp), if_pos (by simp [hna])]
      exact Nat.lt_succ_of_le (length_filter_imp _ _ himp t)
    · by_cases hb1 : decide (b ∉ a :: vis) = true
      · rw [if_pos hb1, if_pos (himp b hb1)]
        exact Nat.succ_lt_succ (ih hat)
      · rw [if_neg hb1]
        by_cases hb2 : decide (b ∉ vis) = true
        · rw [if_pos hb2]
          exact Nat.lt_succ_of_lt (ih hat)
        · rw [if_neg hb2]
          exact ih hat

theorem keysLeft_cons_lt (nodes : List (Int × NavNode)) (cur : Int) (vis : List Int)
    (hcur : cur ∈ nodes.map Prod.fst) (hvis : cur ∉ vis) :
    keysLeft nodes (cur :: vis) < keysLeft nodes vis :=
  length_filter_cons_lt cur (nodes.map Prod.fst) vis hcur hvis

theorem keysLeft_eq_zero (nodes : List (Int × NavNode)) (vis : List Int)
    (h : keysLeft nodes vis = 0) :
    ∀ k ∈ nodes.map Prod.fst, k ∈ vis := by
  intro k hk
  by_contra hkv
  have hmem : k ∈ (nodes.map Prod.fst).filter (fun k => decide (k ∉ vis)) :=
    List.mem_filter.mpr ⟨hk, by simp [hkv]⟩
  rw [List.length_eq_zero.mp h] at hmem
  cases hmem

theorem keysLeft_nil (nodes : List (Int × NavNode)) : keysLeft nodes [] = nodes.length := by
  unfold keysLeft
  rw [List.filter_eq_self.mpr (by intro a _; simp)]
  exact List.length_map ..

theorem getPathAux_unfold (nodes : List (Int × NavNode)) (fuel : Nat) (cur : Int)
    (vis : List Int) :
    getPathAux nodes (fuel + 1) cur vis =
      match alookup cur nodes with
      | none => []
      | some nd =>
        if cur ∈ vis then [] else nd.name :: getPathAux nodes fuel nd.parent_id (cur :: vis) :=
  rfl

theorem getPathAux_succ (nodes : List (Int × NavNode)) :
    ∀ (fuel : Nat) (cur : Int) (vis : List Int), keysLeft nodes vis ≤ fuel →
      getPathAux nodes (fuel + 1) cur vis = getPathAux nodes fuel cur vis := by
  intro fuel
  induction fuel with
  | zero =>
    intro cur vis h
    rw [getPathAux_unfold]
    cases hl : alookup cur nodes with
    | none => rfl
    | some nd =>
      have hcv : cur ∈ vis :=
        keysLeft_eq_zero nodes vis (Nat.le_zero.mp h) cur (alookup_mem_keys cur nd nodes hl)
      simp [getPathAux, hcv]
  | succ fuel ih =>
    intro cur vis h
    rw [getPathAux_unfold nodes (fuel + 1) cur vis, getPathAux_unfold nodes fuel cur vis]
    cases hl : alookup cur nodes with
    | none => rfl
    | some nd =>
      by_cases hv : cur ∈ vis
      · simp [hv]
      · have hlt : keysLeft nodes (cur :: vis) < keysLeft nodes vis :=
          keysLeft_cons_lt nodes cur vis (alookup_mem_keys cur nd nodes hl) hv
        simp only [if_neg hv]
        rw [ih nd.parent_id (cur :: vis) (by omega)]

theorem getPathAux_stable (nodes : List (Int × NavNode)) :
    ∀ (extra fuel : Nat) (cur : Int) (vis : List Int), keysLeft nodes vis ≤ fuel →
      getPathAux nodes (fuel + extra) cur vis = getPathAux nodes fuel cur vis := by
  intro extra
  induction extra with
  | zero => intro fuel cur vis _; rfl
  | succ extra ih =>
    intro fuel cur vis h
    have : fuel + (extra + 1) = (fuel + extra) + 1 := by omega
    rw [this, getPathAux_succ nodes (fuel + extra) cur vis (Nat.le_trans h (Nat.le_add_right ..)),
      ih fuel cur vis h]

theorem getPathAux_length_le (nodes : List (Int × NavNode)) :
    ∀ (fuel : Nat) (cur : Int) (vis : List Int),
      (getPathAux nodes fuel cur vis).length ≤ keysLeft nodes vis := by
  intro fuel
  induction fuel with
  | zero => intro cur vis; exact Nat.zero_le _
  | succ fuel ih =>
    intro cur vis
    rw [getPathAux_unfold]
    cases hl : alookup cur nodes with
    | none => simp
    | some nd =>
      by_cases hv : cur ∈ vis
      · simp [hv]
      · have hlt : keysLeft nodes (cur :: vis) < keysLeft nodes vis :=
          keysLeft_cons_lt nodes cur vis (alookup_mem_keys cur nd nodes hl) hv
        have hrec := ih nd.parent_id (cur :: vis)
        simp only [if_neg hv, List.length_cons]
        omega

/-! ## Characterization of the main loop -/

theorem foldl_stepFile (bc : List (String × String)) :
    ∀ (files : List SiteFile) (s : LoopState),
      files.foldl (stepFile bc) s =
        ⟨s.index_data ++ files.filterMap (entryOf bc), s.skipped + countSkippedF files,
          s.errors + countErroredF files⟩ := by
  intro files
  induction files with
  | nil =>
    intro s
    cases s
    simp [countSkippedF, countErroredF]
  | cons f fs ih =>
    intro s
    rw [List.foldl_cons, ih]
    cases hhtml : isHtmlName f.name with
    | false =>
      have hstep : stepFile bc s f = s := by
        simp [stepFile, hhtml]
      rw [hstep]
      simp only [countSkippedF, countErroredF, List.countP_cons, List.filterMap_cons,
        entryOf, hhtml, Bool.false_and]
      simp
    | true =>
      cases hskip : hasSkipSub f.name with
      | true =>
        have hstep : stepFile bc s f = ⟨s.index_data, s.skipped + 1, s.errors⟩ := by
          simp [stepFile, hhtml, hskip]
        rw [hstep]
        simp only [countSkippedF, countErroredF, List.countP_cons, List.filterMap_cons,
          entryOf, hhtml, hskip]
        simp
        omega
      | false =>
        cases hp : f.parse with
        | failure msg =>
          have hstep : stepFile bc s f = ⟨s.index_data, s.skipped, s.errors + 1⟩ := by
            simp [stepFile, hhtml, hskip, hp]
          rw [hstep]
          simp only [countSkippedF, countErroredF, List.countP_cons, List.filterMap_cons,
            entryOf, isFailure, hhtml, hskip, hp]
          simp
          omega
        | success pr =>
          have hstep : stepFile bc s f = ⟨s.index_data ++ [mkEntry bc f pr], s.skipped, s.errors⟩ := by
            simp [stepFile, hhtml, hskip, hp]
          rw [hstep]
          simp only [countSkippedF, countErroredF, List.countP_cons, List.filterMap_cons,
            entryOf, isFailure, hhtml, hskip, hp]
          simp

theorem run_eq (files : List SiteFile) (nav : Option (List NavRecord)) :
    run files nav =
      ⟨sortByTitle (files.filterMap (entryOf (build_breadcrumbs nav))), countSkippedF files,
        countErroredF files, build_breadcrumbs nav⟩ := by
  simp only [run]
  rw [foldl_stepFile]
  simp

theorem partition_count (bc : List (String × String)) :
    ∀ files : List SiteFile,
      countSkippedF files + countErroredF files + (files.filterMap (entryOf bc)).length
        = totalHtml files := by
  intro files
  induction files with
  | nil => rfl
  | cons f fs ih =>
    simp only [countSkippedF, countErroredF, totalHtml, List.countP_cons,
      List.filterMap_cons] at ih ⊢
    cases hhtml : isHtmlName f.name with
    | false =>
      have e1 : (isHtmlName f.name && hasSkipSub f.name) = false := by rw [hhtml]; rfl
      have e2 : (isHtmlName f.name && !hasSkipSub f.name && isFailure f.parse) = false := by
        rw [hhtml]; rfl
      have e3 : entryOf bc f = none := by
        unfold entryOf
        rw [if_neg]
        intro hc
        rw [hhtml] at hc
        exact Bool.noConfusion hc.1
      rw [e3]
      simp [isFailure] at ih ⊢
      omega
    | true =>
      cases hskip : hasSkipSub f.name with
      | true =>
        have e1 : (isHtmlName f.name && hasSkipSub f.name) = true := by rw [hhtml, hskip]; rfl
        have e2 : (isHtmlName f.name && !hasSkipSub f.name && isFailure f.parse) = false := by
          rw [hhtml, hskip]; rfl
        have e3 : entryOf bc f = none := by
          unfold entryOf
          rw [if_neg]
          intro hc
          rw [hskip] at hc
          exact Bool.noConfusion hc.2
        rw [e3]
        simp [isFailure] at ih ⊢
        omega
      | false =>
        cases hp : f.parse with
        | failure msg =>
          have e1 : (isHtmlName f.name && hasSkipSub f.name) = false := by rw [hhtml, hskip]; rfl
          have e2 : (isHtmlName f.name && !hasSkipSub f.name && isFailure f.parse) = true := by
            rw [hhtml, hskip, hp]; rfl
          have e3 : entryOf bc f = none := by
            unfold entryOf
            rw [if_pos ⟨hhtml, hskip⟩, hp]
          rw [e3]
          simp [isFailure] at ih ⊢
          omega
        | success pr =>
          have e1 : (isHtmlName f.name && hasSkipSub f.name) = false := by rw [hhtml, hskip]; rfl
          have e2 : (isHtmlName f.name && !hasSkipSub f.name && isFailure f.parse) = false := by
            rw [hhtml, hskip, hp]; rfl
          have e3 : entryOf bc f = some (mkEntry bc f pr) := by
            unfold entryOf
            rw [if_pos ⟨hhtml, hskip⟩, hp]
          rw [e3]
          simp [isFailure] at ih ⊢
          omega

/-! ## Invariant of the breadcrumb map -/

theorem mem_breadcrumbFold (nodes : List (Int × NavNode)) :
    ∀ (l : List (Int × NavNode)) (acc : List (String × String)),
      (∀ p ∈ acc, p.1 ≠ "" ∧ strStartsWith p.1 "$$" = false) →
      ∀ p ∈ l.foldl
          (fun acc q =>
            if q.2.url ≠ "" ∧ strStartsWith q.2.url "$$" = false then
              dictInsert q.2.url (String.intercalate " → " (getPath nodes q.1)) acc
            else acc)
          acc,
        p.1 ≠ "" ∧ strStartsWith p.1 "$$" = false := by
  intro l
  induction l with
  | nil => intro acc hacc p hp; exact hacc p hp
  | cons q t ih =>
    intro acc hacc p hp
    rw [List.foldl_cons] at hp
    by_cases hq : q.2.url ≠ "" ∧ strStartsWith q.2.url "$$" = false
    · rw [if_pos hq] at hp
      refine ih _ ?_ p hp
      intro p' hp'
      rcases mem_dictInsert _ _ p' acc hp' with h' | h'
      · rw [h']
        exact hq
      · exact hacc p' h'
    · rw [if_neg hq] at hp
      exact ih acc hacc p hp

theorem mem_buildBreadcrumbMap (nodes : List (Int × NavNode)) :
    ∀ p ∈ buildBreadcrumbMap nodes, p.1 ≠ "" ∧ strStartsWith p.1 "$$" = false := by
  intro p hp
  exact mem_breadcrumbFold nodes nodes [] (by intro p' hp'; cases hp') p hp

/-! ## Dissecting a produced Page Record -/

theorem entryOf_eq_some (bc : List (String × String)) (f : SiteFile) (e : Entry)
    (h : entryOf bc f = some e) :
    ∃ pr, f.parse = ParseOutcome.success pr ∧ e = mkEntry bc f pr := by
  unfold entryOf at h
  by_cases hc : isHtmlName f.name = true ∧ hasSkipSub f.name = false
  · rw [if_pos hc] at h
    cases hp : f.parse with
    | success pr =>
      rw [hp] at h
      exact ⟨pr, rfl, (Option.some_inj.mp h).symm⟩
    | failure msg =>
      rw [hp] at h
      exact Option.noConfusion h
  · rw [if_neg hc] at h
    exact Option.noConfusion h

theorem mkEntry_content_length (bc : List (String × String)) (f : SiteFile)
    (pr : ParseResult) :
    (mkEntry bc f pr).content.length ≤ MAX_CONTENT_LENGTH := by
  simp only [mkEntry]
  by_cases h : MAX_CONTENT_LENGTH < (pystrip (collapseWs pr.rawText)).length
  · rw [if_pos h]
    have ht : (strTake (pystrip (collapseWs pr.rawText)) MAX_CONTENT_LENGTH).length =
        ((pystrip (collapseWs pr.rawText)).data.take MAX_CONTENT_LENGTH).length := rfl
    rw [ht, List.length_take]
    exact Nat.min_le_left ..
  · rw [if_neg h]
    omega

/-! ## Helpers to evaluate the extractor on non-whitespace text -/

theorem collapseChars_nospace : ∀ (b : Bool) (l : List Char),
    (∀ c ∈ l, pyIsSpace c = false) → collapseChars b l = l
  | _, [], _ => rfl
  | b, c :: cs, h => by
    have hc : pyIsSpace c = false := h c (List.mem_cons_self ..)
    have ih := collapseChars_nospace false cs (fun c' hc' => h c' (List.mem_cons_of_mem _ hc'))
    simp [collapseChars, hc, ih]

theorem dropWhile_all_false {α : Type} (p : α → Bool) (l : List α)
    (h : ∀ c ∈ l, p c = false) : l.dropWhile p = l := by
  cases l with
  | nil => rfl
  | cons a t =>
    rw [List.dropWhile_cons, h a (List.mem_cons_self ..)]
    simp

theorem pystripList_nospace (l : List Char) (h : ∀ c ∈ l, pyIsSpace c = false) :
    pystripList l = l := by
  unfold pystripList
  rw [dropWhile_all_false _ _ h,
    dropWhile_all_false _ _ (by intro c hc; exact h c (List.mem_reverse.mp hc)),
    List.reverse_reverse]

theorem longText_collapsed_length :
    MAX_CONTENT_LENGTH < (pystrip (collapseWs ⟨List.replicate 3001 'a'⟩)).length := by
  have hns : ∀ c ∈ List.replicate 3001 'a', pyIsSpace c = false := by
    intro c hc
    rw [List.eq_of_mem_replicate hc]
    rfl
  have h1 : collapseWs ⟨List.replicate 3001 'a'⟩ = ⟨List.replicate 3001 'a'⟩ := by
    unfold collapseWs
    rw [collapseChars_nospace false _ hns]
  have h2 : pystrip (⟨List.replicate 3001 'a'⟩ : String) = ⟨List.replicate 3001 'a'⟩ := by
    unfold pystrip
    rw [pystripList_nospace _ hns]
  rw [h1, h2]
  show MAX_CONTENT_LENGTH < (List.replicate 3001 'a').length
  rw [List.length_replicate]
  decide

/-! ## The claims -/

/-- C1: for every run, `skipped + errors + |output array|` is at most the
number of files found whose name ends in `.htm` or `.html`, with equality
whenever no file matches both the exclusion path and the error path (the
code in fact gives equality unconditionally: each eligible file lands in
exactly one of the three outcomes). -/
theorem c1_outcome_partition (files : List SiteFile) (nav : Option (List NavRecord)) :
    (run files nav).skipped + (run files nav).errors + (run files nav).index_data.length
        ≤ totalHtml files ∧
      ((∀ f ∈ files, ¬(hasSkipSub f.name = true ∧ isFailure f.parse = true)) →
        (run files nav).skipped + (run files nav).errors + (run files nav).index_data.length
          = totalHtml files) := by
  have heq : (run files nav).skipped + (run files nav).errors +
      (run files nav).index_data.length = totalHtml files := by
    rw [run_eq]
    dsimp only
    rw [length_sortByTitle]
    exact partition_count (build_breadcrumbs nav) files
  exact ⟨Nat.le_of_eq heq, fun _ => heq⟩

/-- C1 witness: the partition is exact on a concrete walk of four files
(two indexed, one erroring, one skipped). -/
theorem c1_outcome_partition_witness :
    (run sampleFiles none).skipped + (run sampleFiles none).errors +
        (run sampleFiles none).index_data.length = totalHtml sampleFiles :=
  (c1_outcome_partition sampleFiles none).2 (by decide)

/-- C2: the output array of every run that produces a non-empty output is
sorted by `title` ascending (lexicographic on code points, Python's string
order). -/
theorem c2_output_sorted (files : List SiteFile) (nav : Option (List NavRecord))
    (hne : (run files nav).index_data ≠ []) :
    (run files nav).index_data.Pairwise titleLeR := by
  rw [run_eq]
  exact pairwise_sortByTitle _

/-- C2 witness: a concrete non-empty run is sorted. -/
theorem c2_output_sorted_witness :
    (run sampleFiles none).index_data.Pairwise titleLeR :=
  c2_output_sorted sampleFiles none (by decide)

/-- C3: every Page Record's `content` has length at most
`MAX_CONTENT_LENGTH` (3000), and whenever the collapsed text exceeds the
cap the content is exactly its first `MAX_CONTENT_LENGTH` characters (a
plain cut, no word-boundary adjustment). -/
theorem c3_content_capped :
    (∀ (files : List SiteFile) (nav : Option (List NavRecord)),
        ∀ e ∈ (run files nav).index_data, e.content.length ≤ MAX_CONTENT_LENGTH) ∧
      (∀ (bc : List (String × String)) (f : SiteFile) (pr : ParseResult),
        MAX_CONTENT_LENGTH < (pystrip (collapseWs pr.rawText)).length →
          (mkEntry bc f pr).content =
              strTake (pystrip (collapseWs pr.rawText)) MAX_CONTENT_LENGTH ∧
            (mkEntry bc f pr).content.length = MAX_CONTENT_LENGTH) := by
  constructor
  · intro files nav e he
    rw [run_eq] at he
    dsimp only at he
    rw [mem_sortByTitle] at he
    rcases List.mem_filterMap.mp he with ⟨f, _, hfe⟩
    rcases entryOf_eq_some _ f e hfe with ⟨pr, _, hepr⟩
    rw [hepr]
    exact mkEntry_content_length _ f pr
  · intro bc f pr h
    constructor
    · simp only [mkEntry]
      rw [if_pos h]
    · simp only [mkEntry]
      rw [if_pos h]
      have ht : (strTake (pystrip (collapseWs pr.rawText)) MAX_CONTENT_LENGTH).length =
          ((pystrip (collapseWs pr.rawText)).data.take MAX_CONTENT_LENGTH).length := rfl
      have hd : (pystrip (collapseWs pr.rawText)).length =
          (pystrip (collapseWs pr.rawText)).data.length := rfl
      rw [ht, List.length_take]
      rw [hd] at h
      omega

/-- C3 witness: the cap holds on a concrete record of the sample run, and
a 3001-character text is cut to exactly 3000 characters. -/
theorem c3_content_capped_witness :
    (⟨"Alpha", "a.htm", "Hello World", none⟩ : Entry).content.length ≤ MAX_CONTENT_LENGTH ∧
      ((mkEntry [] fileA ⟨none, ⟨List.replicate 3001 'a'⟩⟩).content =
          strTake (pystrip (collapseWs ⟨List.replicate 3001 'a'⟩)) MAX_CONTENT_LENGTH ∧
        (mkEntry [] fileA ⟨none, ⟨List.replicate 3001 'a'⟩⟩).content.length
          = MAX_CONTENT_LENGTH) :=
  ⟨c3_content_capped.1 sampleFiles none ⟨"Alpha", "a.htm", "Hello World", none⟩ (by decide),
    c3_content_capped.2 [] fileA ⟨none, ⟨List.replicate 3001 'a'⟩⟩ longText_collapsed_length⟩

/-- C4: with navigation records (1, -1, "A", ""), (2, 1, "B", "b.htm"),
(3, 2, "C", "c.htm"), the breadcrumb for "c.htm" is "A → B → C" and for
"b.htm" is "A → B": names are collected leaf-to-root, reversed, and joined
with " → ". -/
theorem c4_breadcrumb_roundtrip :
    alookup "c.htm" (build_breadcrumbs (some navC4)) = some "A → B → C" ∧
      alookup "b.htm" (build_breadcrumbs (some navC4)) = some "A → B" := by
  exact ⟨by decide, by decide⟩

/-- C5: a parsed node whose url is empty or starts with `$$` contributes
no breadcrumb entry for its url; every entry of the mapping comes from a
url that is non-empty and not `$$`-prefixed. -/
theorem c5_url_filter (records : List NavRecord) :
    (∀ u b, (u, b) ∈ build_breadcrumbs (some records) →
        u ≠ "" ∧ strStartsWith u "$$" = false) ∧
      (∀ (k : Int) (nd : NavNode), (k, nd) ∈ buildNodes records →
        nd.url = "" ∨ strStartsWith nd.url "$$" = true →
          alookup nd.url (build_breadcrumbs (some records)) = none) := by
  constructor
  · intro u b hub
    exact mem_buildBreadcrumbMap (buildNodes records) (u, b) hub
  · intro k nd _ hbad
    cases hl : alookup nd.url (build_breadcrumbs (some records)) with
    | none => rfl
    | some b =>
      have hmem := alookup_some_mem nd.url b _ hl
      have hgood := mem_buildBreadcrumbMap (buildNodes records) (nd.url, b) hmem
      rcases hbad with hbad | hbad
      · exact absurd hbad hgood.1
      · rw [hgood.2] at hbad
        exact Bool.noConfusion hbad

/-- C5 witness: on the round-trip records plus a `$$unsavedpage1` node,
the mapping key "b.htm" passes the filter and the placeholder url has no
entry. -/
theorem c5_url_filter_witness :
    ("b.htm" ≠ "" ∧ strStartsWith "b.htm" "$$" = false) ∧
      alookup "$$unsavedpage1" (build_breadcrumbs (some navC5)) = none :=
  ⟨(c5_url_filter navC5).1 "b.htm" "A → B" (by decide),
    (c5_url_filter navC5).2 4 ⟨1, "D", "$$unsavedpage1"⟩ (by decide) (by decide)⟩

/-- C6: the parent-chain walk terminates on every node table, cyclic ones
included: the result is already stable at budget `nodes.length` (the loop
visits each key at most once), the path length never exceeds the table
size, and on a concrete cyclic table the partial path collected before the
repeated node is used as the breadcrumb. -/
theorem c6_walk_terminates (nodes : List (Int × NavNode)) (node_id : Int) :
    (∀ extra : Nat,
        getPathAux nodes (nodes.length + extra) node_id [] =
          getPathAux nodes nodes.length node_id []) ∧
      (getPath nodes node_id).length ≤ nodes.length ∧
      build_breadcrumbs (some navCyc) = [("a.htm", "B → A")] := by
  refine ⟨?_, ?_, by decide⟩
  · intro extra
    exact getPathAux_stable nodes extra nodes.length node_id []
      (Nat.le_of_eq (keysLeft_nil nodes))
  · unfold getPath
    rw [List.length_reverse]
    have h := getPathAux_length_le nodes nodes.length node_id []
    rw [keysLeft_nil] at h
    exact h

/-- C7: when the navigation document is absent the breadcrumb mapping is
empty, no Page Record carries a `path` field, and the run continues
unchanged (same error count as with any navigation records). -/
theorem c7_missing_nav (files : List SiteFile) (records : List NavRecord) :
    (run files none).breadcrumbs = [] ∧
      (∀ e ∈ (run files none).index_data, e.path = none) ∧
      (run files none).errors = (run files (some records)).errors := by
  refine ⟨by rw [run_eq]; rfl, ?_, by rw [run_eq, run_eq]⟩
  intro e he
  rw [run_eq] at he
  dsimp only at he
  rw [mem_sortByTitle] at he
  rcases List.mem_filterMap.mp he with ⟨f, _, hfe⟩
  rcases entryOf_eq_some _ f e hfe with ⟨pr, _, hepr⟩
  rw [hepr]
  show (mkEntry [] f pr).path = none
  simp [mkEntry, alookup]

/-- C7 witness: a concrete run without the navigation document. -/
theorem c7_missing_nav_witness :
    (run sampleFiles none).breadcrumbs = [] ∧
      (⟨"Alpha", "a.htm", "Hello World", none⟩ : Entry).path = none ∧
      (run sampleFiles none).errors = (run sampleFiles (some navC4)).errors :=
  ⟨(c7_missing_nav sampleFiles navC4).1,
    (c7_missing_nav sampleFiles navC4).2.1 ⟨"Alpha", "a.htm", "Hello World", none⟩ (by decide),
    (c7_missing_nav sampleFiles navC4).2.2⟩

/-- C8: a file whose per-file processing raises does not abort the run:
`errors` grows by exactly one for it, it contributes no Page Record, and
the surrounding files are processed exactly as if it were absent. -/
theorem c8_error_isolated (pre post : List SiteFile) (f : SiteFile)
    (nav : Option (List NavRecord)) (hhtml : isHtmlName f.name = true)
    (hskip : hasSkipSub f.name = false) (herr : isFailure f.parse = true) :
    (run (pre ++ f :: post) nav).errors = (run (pre ++ post) nav).errors + 1 ∧
      (run (pre ++ f :: post) nav).index_data = (run (pre ++ post) nav).index_data ∧
      (run (pre ++ f :: post) nav).skipped = (run (pre ++ post) nav).skipped := by
  have hef : entryOf (build_breadcrumbs nav) f = none := by
    unfold entryOf
    cases hp : f.parse with
    | success pr =>
      rw [hp] at herr
      exact absurd herr (by simp [isFailure])
    | failure msg =>
      by_cases hc : isHtmlName f.name = true ∧ hasSkipSub f.name = false
      · rw [if_pos hc]
      · rw [if_neg hc]
  have e1 : (isHtmlName f.name && hasSkipSub f.name) = false := by
    rw [hhtml, hskip]
    rfl
  have e2 : (isHtmlName f.name && !hasSkipSub f.name && isFailure f.parse) = true := by
    rw [hhtml, hskip, herr]
    rfl
  refine ⟨?_, ?_, ?_⟩
  · rw [run_eq, run_eq]
    dsimp only
    simp only [countErroredF, List.countP_append, List.countP_cons, e2]
    simp
    omega
  · rw [run_eq, run_eq]
    dsimp only
    rw [List.filterMap_append, List.filterMap_cons, hef, List.filterMap_append]
  · rw [run_eq, run_eq]
    dsimp only
    simp only [countSkippedF, List.countP_append, List.countP_cons, e1]
    simp

/-- C8 witness: a concrete run with a failing file between two good ones. -/
theorem c8_error_isolated_witness :
    (run [fileA, fileBad, fileB] none).errors = (run [fileA, fileB] none).errors + 1 ∧
      (run [fileA, fileBad, fileB] none).index_data = (run [fileA, fileB] none).index_data ∧
      (run [fileA, fileBad, fileB] none).skipped = (run [fileA, fileB] none).skipped :=
  c8_error_isolated [fileA] [fileB] fileBad none (by decide) (by decide) (by decide)

/-- C9 counterexample: with an output size of 6 MiB (well over 5 MB) the
summary is the same ten lines as always and none of them mentions
`MAX_CONTENT_LENGTH` — the script prints no advisory recommending a lower
`MAX_CONTENT_LENGTH`, contrary to the claim. -/
theorem c9_no_advisory_counterexample :
    5 * 1024 * 1024 < 6 * 1024 * 1024 ∧
      (summaryReport resC9 (6 * 1024 * 1024)).all
          (fun l => !strContains l "MAX_CONTENT_LENGTH") = true ∧
      (summaryReport resC9 (6 * 1024 * 1024)).length = (summaryReport resC9 1000).length :=
  ⟨by decide, by decide, rfl⟩

/-- C9 (amended): the summary report includes the final file size
formatted in MB when the size exceeds one MiB and in KB otherwise; it
always consists of the same ten lines, with no 5 MB advisory. -/
theorem c9_size_report_amended (r : RunResult) (file_size : Nat) :
    (summaryReport r file_size).length = 10 ∧
      (summaryReport r file_size)[6]? = some ("  search.json：" ++ size_str file_size) ∧
      (1024 * 1024 < file_size → size_str file_size = fmtMB file_size ++ " MB") ∧
      (¬ 1024 * 1024 < file_size → size_str file_size = fmtKB file_size ++ " KB") := by
  refine ⟨rfl, rfl, ?_, ?_⟩
  · intro h
    unfold size_str
    rw [if_pos h]
  · intro h
    unfold size_str
    rw [if_neg h]

/-- C9 witness: the amended statement evaluated at a 6 MiB output. -/
theorem c9_size_report_amended_witness :
    (summaryReport resC9 (6 * 1024 * 1024)).length = 10 ∧
      size_str (6 * 1024 * 1024) = fmtMB (6 * 1024 * 1024) ++ " MB" :=
  ⟨(c9_size_report_amended resC9 (6 * 1024 * 1024)).1,
    (c9_size_report_amended resC9 (6 * 1024 * 1024)).2.2.1 (by decide)⟩

/-- C10: the skip-substring filter reads only the base name: an eligible
file whose base name contains no skip substring is processed and never
counted as skipped, whatever its directory components are — in particular
the `skipped` counter does not depend on the directories at all. -/
theorem c10_skip_basename_only (dirs dirs2 : List String) (name : String) (p : ParseOutcome)
    (nav : Option (List NavRecord)) (hhtml : isHtmlName name = true)
    (hskip : hasSkipSub name = false) :
    (run [⟨dirs, name, p⟩] nav).skipped = 0 ∧
      (run [⟨dirs, name, p⟩] nav).errors + (run [⟨dirs, name, p⟩] nav).index_data.length = 1 ∧
      (run [⟨dirs, name, p⟩] nav).skipped = (run [⟨dirs2, name, p⟩] nav).skipped := by
  have h1 : (run [⟨dirs, name, p⟩] nav).skipped = 0 := by
    rw [run_eq]
    dsimp only
    simp [countSkippedF, hskip]
  refine ⟨h1, ?_, ?_⟩
  · rw [run_eq]
    dsimp only
    rw [length_sortByTitle]
    have hpart := partition_count (build_breadcrumbs nav) [⟨dirs, name, p⟩]
    simp [countSkippedF, countErroredF, totalHtml, hskip, hhtml] at hpart ⊢
    omega
  · rw [run_eq, run_eq]
    dsimp only
    simp only [countSkippedF, List.countP_cons, List.countP_nil]

/-- C10 witness: a file named `page.htm` inside a directory named `index`
is processed, and its run skips nothing. -/
theorem c10_skip_basename_only_witness :
    (run [⟨["index"], "page.htm", ParseOutcome.success ⟨none, "x"⟩⟩] none).skipped = 0 ∧
      (run [⟨["index"], "page.htm", ParseOutcome.success ⟨none, "x"⟩⟩] none).errors +
          (run [⟨["index"], "page.htm",
            ParseOutcome.success ⟨none, "x"⟩⟩] none).index_data.length = 1 ∧
      (run [⟨["index"], "page.htm", ParseOutcome.success ⟨none, "x"⟩⟩] none).skipped =
        (run [⟨[], "page.htm", ParseOutcome.success ⟨none, "x"⟩⟩] none).skipped :=
  c10_skip_basename_only ["index"] [] "page.htm" (ParseOutcome.success ⟨none, "x"⟩) none
    (by decide) (by decide)

end SearchIndex
